import Mathlib

/-!  Shallow embedding of the SolanaSwapAgent off-chain engine
(`src/offchain/src`): the price-monitor arbitrage scan
(`price_monitor.py`), the swap-agent scan with truncation and the
task-launch loop (`swap_agent.py`), the swap executor's order building
and execution statistics (`swap_executor.py`), the profit and slippage
utilities (`utils.py`), and the per-DEX monitoring loop.

Prices, liquidities, timestamps and latencies are embedded as exact
rationals (the spec mandates exact decimal arithmetic, never floats for
comparisons); Python `int(...)` truncation of non-negative amounts is
`Nat` division.  Python dicts are association lists in insertion order,
looked up by `dictGet`.  -/

namespace SolSwap

/-- One stored quote: the value `latest_prices[dex][pair_key]`, a dict
with keys `price`, `liquidity` and `timestamp`. -/
structure PriceData where
  price : ℚ
  liquidity : ℚ
  timestamp : ℚ
deriving Repr, DecidableEq

/-- `latest_prices` as read by one scan: each DEX name associated to
its pair-key → price-data mapping, in dict iteration order. -/
abbrev Snapshot := List (String × List (String × PriceData))

/-- Python dict lookup on an association list (`d[k]`, `d.get(k)`,
`k in d`). -/
def dictGet {β : Type} : List (String × β) → String → Option β
  | [], _ => none
  | (k, v) :: rest, key => if k = key then some v else dictGet rest key

/-- One element of the scan's `dex_prices` list in
`PriceMonitor.get_arbitrage_opportunities`. -/
structure DexPrice where
  dex : String
  price : ℚ
  liquidity : ℚ
  timestamp : ℚ
deriving Repr, DecidableEq

/-- Price-collection loop of `get_arbitrage_opportunities`: for each
DEX of the snapshot, if `pair_key in prices`, append that DEX's entry.
There is no reciprocal-key branch here. -/
def collectDexPrices (snap : Snapshot) (pairKey : String) : List DexPrice :=
  snap.filterMap fun dp =>
    (dictGet dp.2 pairKey).map fun pd =>
      { dex := dp.1, price := pd.price, liquidity := pd.liquidity,
        timestamp := pd.timestamp }

/-- Python `min(l, key=lambda x: x.price)` over `best :: l`: fold that
replaces the running best only on a strictly smaller price, so the
first minimum in iteration order wins ties. -/
def selMinFrom (best : DexPrice) (l : List DexPrice) : DexPrice :=
  l.foldl (fun b c => if c.price < b.price then c else b) best

/-- Python `max(l, key=lambda x: x.price)` over `best :: l`: replaces
the running best only on a strictly larger price, so the first maximum
in iteration order wins ties. -/
def selMaxFrom (best : DexPrice) (l : List DexPrice) : DexPrice :=
  l.foldl (fun b c => if b.price < c.price then c else b) best

/-- One opportunity dict built by `get_arbitrage_opportunities`. -/
structure Opportunity where
  token_pair : String
  buy_dex : String
  sell_dex : String
  buy_price : ℚ
  sell_price : ℚ
  profit_percentage : ℚ
  buy_liquidity : ℚ
  sell_liquidity : ℚ
  timestamp : ℚ
deriving Repr, DecidableEq

/-- Selection step of the scan for one ordered pair once the `dex_prices`
list is collected: `if len(dex_prices) >= 2`, pick the lowest and the
highest quote (`min`/`max` over the whole list) and emit at most one
opportunity.  `now` is the wall clock `time.time()` read when the
opportunity dict is built. -/
def scanPairFrom (minProfit now : ℚ) (ta tb : String) :
    List DexPrice → List Opportunity
  | x :: y :: rest =>
    let mn := selMinFrom x (y :: rest)
    let mx := selMaxFrom x (y :: rest)
    if mn.dex ≠ mx.dex then
      let pp := (mx.price - mn.price) / mn.price * 100
      if minProfit ≤ pp then
        [{ token_pair := (ta.take 8) ++ ".../" ++ (tb.take 8) ++ "...",
           buy_dex := mn.dex, sell_dex := mx.dex,
           buy_price := mn.price, sell_price := mx.price,
           profit_percentage := pp,
           buy_liquidity := mn.liquidity, sell_liquidity := mx.liquidity,
           timestamp := now }]
      else []
    else []
  | _ => []

/-- Body of the scan's double token loop for one ordered pair
`(token_a, token_b)` with `token_a ≠ token_b`. -/
def scanPair (snap : Snapshot) (minProfit now : ℚ) (ta tb : String) :
    List Opportunity :=
  scanPairFrom minProfit now ta tb (collectDexPrices snap (ta ++ "-" ++ tb))

/-- `opportunities.sort(key=lambda x: x["profit_percentage"],
reverse=True)`: descending order, "`b` may follow `a`" meaning
`b.profit_percentage ≤ a.profit_percentage`. -/
def profitGE (a b : Opportunity) : Prop :=
  b.profit_percentage ≤ a.profit_percentage

instance : DecidableRel profitGE := fun a b =>
  inferInstanceAs (Decidable (b.profit_percentage ≤ a.profit_percentage))

instance : IsTotal Opportunity profitGE :=
  ⟨fun a b => le_total b.profit_percentage a.profit_percentage⟩

instance : IsTrans Opportunity profitGE :=
  ⟨fun _ _ _ h1 h2 => le_trans h2 h1⟩

/-- `PriceMonitor.get_arbitrage_opportunities`: scan every ordered pair
of distinct monitored tokens, then sort by profit percentage
descending (a stable sort, as Python's). -/
def get_arbitrage_opportunities (snap : Snapshot) (tokens : List String)
    (minProfit now : ℚ) : List Opportunity :=
  List.insertionSort profitGE
    (tokens.flatMap fun ta => tokens.flatMap fun tb =>
      if ta = tb then [] else scanPair snap minProfit now ta tb)

/-- `PriceMonitor.get_price_for_pair` with an explicit `dex_name`: the
direct key first; if absent, the reversed key with the price
inverted. -/
def get_price_for_pair (snap : Snapshot) (ta tb dex : String) :
    Option PriceData :=
  let dexPrices := (dictGet snap dex).getD []
  match dictGet dexPrices (ta ++ "-" ++ tb) with
  | some pd => some pd
  | none =>
    match dictGet dexPrices (tb ++ "-" ++ ta) with
    | some pd => some { pd with price := 1 / pd.price }
    | none => none

/-- Modelled from the spec's words, for comparison only: the claimed
per-venue lookup of the scan, "look up the direct key or, if absent,
the reciprocal key with price inverted (1/price)".  The repository's
scan loop (`collectDexPrices`) has no reciprocal branch. -/
def collectDexPricesClaimed (snap : Snapshot) (ta tb : String) :
    List DexPrice :=
  snap.filterMap fun dp =>
    match dictGet dp.2 (ta ++ "-" ++ tb) with
    | some pd =>
      some { dex := dp.1, price := pd.price, liquidity := pd.liquidity,
             timestamp := pd.timestamp }
    | none =>
      (dictGet dp.2 (tb ++ "-" ++ ta)).map fun pd =>
        { dex := dp.1, price := 1 / pd.price, liquidity := pd.liquidity,
          timestamp := pd.timestamp }

/-- Rewrite every stored timestamp of a snapshot with `f`, leaving DEX
names, pair keys, prices and liquidities alone. -/
def retime (f : ℚ → ℚ) (snap : Snapshot) : Snapshot :=
  snap.map fun dp =>
    (dp.1, dp.2.map fun kv => (kv.1, { kv.2 with timestamp := f kv.2.timestamp }))

/-- `utils.calculate_profit`: `(sell_price - buy_price) *
position_size` in exact decimal arithmetic, clamped below at zero. -/
def calculate_profit (buy_price sell_price position_size : ℚ) : ℚ :=
  max ((sell_price - buy_price) * position_size) 0

/-- `utils.calculate_slippage_amount`:
`int(amount * (10000 - slippage_bps) / 10000)` in exact arithmetic,
truncated to an integer (`Nat` division, the amounts being
non-negative). -/
def calculate_slippage_amount (amount slippage_bps : ℕ) : ℕ :=
  amount * (10000 - slippage_bps) / 10000

/-- The `ArbitrageOpportunity` dataclass of `swap_agent.py`. -/
structure AgentOpportunity where
  token_a : String
  token_b : String
  buy_dex : String
  sell_dex : String
  buy_price : ℚ
  sell_price : ℚ
  profit_percentage : ℚ
  estimated_profit : ℚ
  swap_path : List String
  timestamp : ℚ
deriving Repr, DecidableEq

/-- DEX loop of `SolanaSwapAgent.find_arbitrage_opportunities` for one
pair key: fold over the snapshot tracking the lowest price seen
(`best_buy`) and the highest (`best_sell`) together with their DEX
names; strict comparisons keep the first DEX on ties.  (The loop body
also computes `reverse_pair_key` but never reads it.) -/
def bestPrices (snap : Snapshot) (pairKey : String) :
    Option (ℚ × String) × Option (ℚ × String) :=
  snap.foldl
    (fun acc dp =>
      match dictGet dp.2 pairKey with
      | none => acc
      | some pd =>
        let bb := match acc.1 with
          | none => some (pd.price, dp.1)
          | some b => if pd.price < b.1 then some (pd.price, dp.1) else some b
        let bs := match acc.2 with
          | none => some (pd.price, dp.1)
          | some s => if s.1 < pd.price then some (pd.price, dp.1) else some s
        (bb, bs))
    (none, none)

/-- Emission step of `find_arbitrage_opportunities` for one ordered
pair: the Python truthiness test `if best_buy_price and best_sell_price
and buy != sell and sell > buy` makes a missing or zero best price fall
through, then the profit threshold is checked and at most one
`ArbitrageOpportunity` is built. -/
def agentEmit (minProfit maxPos now : ℚ) (ta tb : String) :
    Option (ℚ × String) × Option (ℚ × String) → List AgentOpportunity
  | (some bb, some bs) =>
    if bb.1 ≠ 0 ∧ bs.1 ≠ 0 ∧ bb.2 ≠ bs.2 ∧ bb.1 < bs.1 then
      let pp := (bs.1 - bb.1) / bb.1 * 100
      if minProfit ≤ pp then
        [{ token_a := ta, token_b := tb, buy_dex := bb.2, sell_dex := bs.2,
           buy_price := bb.1, sell_price := bs.1, profit_percentage := pp,
           estimated_profit := calculate_profit bb.1 bs.1 maxPos,
           swap_path := [bb.2, bs.2], timestamp := now }]
      else []
    else []
  | _ => []

/-- Per-pair body of `find_arbitrage_opportunities`: best prices, then
the emission step. -/
def agentScanPair (snap : Snapshot) (minProfit maxPos now : ℚ)
    (ta tb : String) : List AgentOpportunity :=
  agentEmit minProfit maxPos now ta tb (bestPrices snap (ta ++ "-" ++ tb))

/-- The sort order of `opportunities.sort(key=profit_percentage,
reverse=True)` on agent opportunities. -/
def agentProfitGE (a b : AgentOpportunity) : Prop :=
  b.profit_percentage ≤ a.profit_percentage

instance : DecidableRel agentProfitGE := fun a b =>
  inferInstanceAs (Decidable (b.profit_percentage ≤ a.profit_percentage))

instance : IsTotal AgentOpportunity agentProfitGE :=
  ⟨fun a b => le_total b.profit_percentage a.profit_percentage⟩

instance : IsTrans AgentOpportunity agentProfitGE :=
  ⟨fun _ _ _ h1 h2 => le_trans h2 h1⟩

/-- `SolanaSwapAgent.find_arbitrage_opportunities`: empty price data
short-circuits; otherwise scan every ordered pair of distinct
monitored tokens, sort by profit percentage descending and truncate to
the top `max_concurrent_swaps`. -/
def find_arbitrage_opportunities (snap : Snapshot) (tokens : List String)
    (minProfit maxPos : ℚ) (maxConcurrent : ℕ) (now : ℚ) :
    List AgentOpportunity :=
  if snap = [] then []
  else
    (List.insertionSort agentProfitGE
      (tokens.flatMap fun ta => tokens.flatMap fun tb =>
        if ta = tb then [] else
          agentScanPair snap minProfit maxPos now ta tb)).take maxConcurrent

/-- Task-launch loop of `SolanaSwapAgent.execute_opportunities`:
`tasks` accumulates launched runs newest-first; the loop stops as soon
as `len(tasks) >= max_concurrent_swaps`. -/
def launchLoop (maxConcurrent : ℕ) :
    List AgentOpportunity → List AgentOpportunity → List AgentOpportunity
  | tasks, [] => tasks.reverse
  | tasks, o :: rest =>
    if maxConcurrent ≤ tasks.length then tasks.reverse
    else launchLoop maxConcurrent (o :: tasks) rest

/-- The pipeline runs `execute_opportunities` launches in one cycle. -/
def execute_opportunities_tasks (ops : List AgentOpportunity)
    (maxConcurrent : ℕ) : List AgentOpportunity :=
  launchLoop maxConcurrent [] ops

/-- One per-hop instruction dict built by
`SwapExecutor._build_swap_data`. -/
structure SwapInstruction where
  dex_type : ℕ
  amount_in : ℕ
  minimum_amount_out : ℕ
  token_mint_in : String
  token_mint_out : String
deriving Repr, DecidableEq

/-- Python `str.lower()`: lower-case every character. -/
def strLower (s : String) : String :=
  ⟨s.data.map Char.toLower⟩

/-- `dex_type_map` of `_build_swap_data`. -/
def dexTypeMap : String → Option ℕ
  | "jupiter" => some 0
  | "raydium" => some 1
  | "phoenix" => some 2
  | "meteora" => some 3
  | _ => none

/-- Hop loop of `_build_swap_data`: `i` is the `enumerate` index, `n`
is `len(dex_path)`, `cur` the running `current_amount`.  Each hop's
`minimum_amount_out = int(current_amount * (10000 - bps) / 10000)`
becomes the next hop's `amount_in`; an unknown DEX name aborts with
`None`. -/
def buildHops (ta tb : String) (bps n : ℕ) :
    ℕ → ℕ → List String → Option (List SwapInstruction)
  | _, _, [] => some []
  | i, cur, d :: rest =>
    match dexTypeMap (strLower d) with
    | none => none
    | some dt =>
      let tks := if i = 0 then (ta, tb) else if i = n - 1 then (tb, ta) else (tb, ta)
      let minOut := cur * (10000 - bps) / 10000
      (buildHops ta tb bps n (i + 1) minOut rest).map fun l =>
        { dex_type := dt, amount_in := cur, minimum_amount_out := minOut,
          token_mint_in := tks.1, token_mint_out := tks.2 } :: l

/-- The dict `_build_swap_data` returns on success. -/
structure SwapData where
  expected_profit : ℤ
  slippage_bps : ℕ
  swap_instructions : List SwapInstruction
deriving Repr, DecidableEq

/-- `SwapExecutor._build_swap_data`. -/
def build_swap_data (ta tb : String) (swapAmount : ℕ) (dexPath : List String)
    (minProfit : ℤ) (bps : ℕ) : Option SwapData :=
  (buildHops ta tb bps dexPath.length 0 swapAmount dexPath).map fun instrs =>
    { expected_profit := minProfit, slippage_bps := bps,
      swap_instructions := instrs }

/-- `self.execution_stats` of `SwapExecutor`. -/
structure ExecutionStats where
  total_attempts : ℕ
  successful_swaps : ℕ
  failed_swaps : ℕ
  total_gas_used : ℕ
  average_execution_time : ℚ
deriving Repr, DecidableEq

/-- The stats dict as `SwapExecutor.__init__` builds it. -/
def initialStats : ExecutionStats :=
  { total_attempts := 0, successful_swaps := 0, failed_swaps := 0,
    total_gas_used := 0, average_execution_time := 0 }

/-- `SwapExecutor._update_average_execution_time`:
`new_avg = (current_avg * (total_successful - 1) + x) / total_successful`. -/
def update_average_execution_time (s : ExecutionStats)
    (executionTime : ℚ) : ExecutionStats :=
  let n : ℚ := s.successful_swaps
  { s with average_execution_time :=
      (s.average_execution_time * (n - 1) + executionTime) / n }

/-- The exit paths of one `SwapExecutor.execute_arbitrage_swap` call:
swap-data build failure, account-lookup failure, failed transaction,
raised exception, or confirmed transaction with its elapsed time and
gas. -/
inductive SwapOutcome
  | buildDataFailed
  | accountsFailed
  | txFailed
  | raised
  | confirmedTx (executionTime : ℚ) (gasUsed : ℕ)
deriving Repr, DecidableEq

/-- The statistics updates `execute_arbitrage_swap` performs on each
exit path: `total_attempts` is incremented on entry, then exactly one
branch increments `failed_swaps` or `successful_swaps` (the latter also
accumulating gas and the running average latency). -/
def execute_arbitrage_swap_stats (s : ExecutionStats) :
    SwapOutcome → ExecutionStats :=
  fun outcome =>
    let s1 := { s with total_attempts := s.total_attempts + 1 }
    match outcome with
    | .buildDataFailed => { s1 with failed_swaps := s1.failed_swaps + 1 }
    | .accountsFailed => { s1 with failed_swaps := s1.failed_swaps + 1 }
    | .txFailed => { s1 with failed_swaps := s1.failed_swaps + 1 }
    | .raised => { s1 with failed_swaps := s1.failed_swaps + 1 }
    | .confirmedTx t g =>
      update_average_execution_time
        { s1 with successful_swaps := s1.successful_swaps + 1,
                  total_gas_used := s1.total_gas_used + g } t

/-- Run `execute_arbitrage_swap` once per latency in `xs`, every call
confirming, starting from the initial zero statistics. -/
def runSuccesses (xs : List ℚ) : ExecutionStats :=
  xs.foldl (fun s x => execute_arbitrage_swap_stats s (.confirmedTx x 0))
    initialStats

/-- What one poll of `_monitor_dex_prices` observes: a non-empty price
dict, a falsy one, or an exception from the DEX client. -/
inductive PollEvent
  | gotPrices
  | noPrices
  | raised
deriving Repr, DecidableEq

/-- `max_failures = 5` in `_monitor_dex_prices`. -/
def maxFailures : ℕ := 5

/-- One iteration of the `while self.monitoring` loop of
`_monitor_dex_prices`: from the consecutive-failure counter and the
iteration's event, the counter after the iteration and the sleeps the
iteration performs before the next poll, in order.  On prices: reset,
threshold check (`30`-second pause and reset when it fires), interval
sleep.  On a falsy dict: increment, threshold check, interval sleep.
On an exception: increment, then only the capped exponential backoff
`min(30, 2 ** failures)` — no threshold check and no reset. -/
def monitorStep (c : ℕ) (event : PollEvent) (interval : ℚ) : ℕ × List ℚ :=
  match event with
  | .gotPrices =>
    if maxFailures ≤ 0 then (0, [30, interval]) else (0, [interval])
  | .noPrices =>
    let c1 := c + 1
    if maxFailures ≤ c1 then (0, [30, interval]) else (c1, [interval])
  | .raised =>
    let c1 := c + 1
    (c1, [min 30 ((2 : ℚ) ^ c1)])

/-- Total time an iteration sleeps before the next poll. -/
def sleepTotal (step : ℕ × List ℚ) : ℚ :=
  step.2.sum

/-! ### Selection lemmas

`selMinFrom` and `selMaxFrom` keep the first extremum of the iteration
order; both are instances of one fold parametrised by a key. -/

/-- The fold shared by Python `min` and `max` with a key: replace the
running best only on a strict key improvement. -/
def pickFirstBy (key : DexPrice → ℚ) (best : DexPrice) (l : List DexPrice) :
    DexPrice :=
  l.foldl (fun b c => if key c < key b then c else b) best

lemma selMinFrom_eq_pick (b : DexPrice) (l : List DexPrice) :
    selMinFrom b l = pickFirstBy (fun e => e.price) b l := rfl

lemma selMaxFrom_eq_pick (b : DexPrice) (l : List DexPrice) :
    selMaxFrom b l = pickFirstBy (fun e => -e.price) b l := by
  unfold selMaxFrom pickFirstBy
  congr 1
  funext p c
  exact if_congr neg_lt_neg_iff.symm rfl rfl

/-- The fold returns either the seed (then the seed is a weak minimum
of the key over the list) or an element of the list whose key is a
strict improvement over the seed, a weak minimum over the list, and
strictly better than everything at earlier indices. -/
lemma pickFirstBy_spec (key : DexPrice → ℚ) :
    ∀ (l : List DexPrice) (b : DexPrice),
      (pickFirstBy key b l = b ∧ ∀ e ∈ l, key b ≤ key e) ∨
      ∃ (i : ℕ) (e : DexPrice), l[i]? = some e ∧ pickFirstBy key b l = e ∧
        key e < key b ∧
        (∀ (j : ℕ) (e' : DexPrice), j < i → l[j]? = some e' → key e < key e') ∧
        ∀ e' ∈ l, key e ≤ key e'
  | [], b => .inl ⟨rfl, fun e he => absurd he (List.not_mem_nil e)⟩
  | c :: cs, b => by
    have hstep : pickFirstBy key b (c :: cs)
        = pickFirstBy key (if key c < key b then c else b) cs := rfl
    by_cases h : key c < key b
    · rw [if_pos h] at hstep
      rcases pickFirstBy_spec key cs c with ⟨heq, hall⟩ |
        ⟨i, e, hi, heq, hlt, hfirst, hall⟩
      · refine .inr ⟨0, c, by simp, hstep.trans heq, h, ?_, ?_⟩
        · intro j e' hj _
          exact absurd hj (Nat.not_lt_zero j)
        · intro e' he'
          rcases List.mem_cons.mp he' with rfl | he'
          · exact le_refl _
          · exact hall e' he'
      · refine .inr ⟨i + 1, e, by simpa using hi, hstep.trans heq,
          lt_trans hlt h, ?_, ?_⟩
        · intro j e' hj hj'
          cases j with
          | zero =>
            simp only [List.getElem?_cons_zero, Option.some.injEq] at hj'
            exact hj' ▸ hlt
          | succ j =>
            exact hfirst j e' (Nat.lt_of_succ_lt_succ hj) (by simpa using hj')
        · intro e' he'
          rcases List.mem_cons.mp he' with rfl | he'
          · exact le_of_lt hlt
          · exact hall e' he'
    · rw [if_neg h] at hstep
      have hbc : key b ≤ key c := le_of_not_lt h
      rcases pickFirstBy_spec key cs b with ⟨heq, hall⟩ |
        ⟨i, e, hi, heq, hlt, hfirst, hall⟩
      · refine .inl ⟨hstep.trans heq, ?_⟩
        intro e' he'
        rcases List.mem_cons.mp he' with rfl | he'
        · exact hbc
        · exact hall e' he'
      · refine .inr ⟨i + 1, e, by simpa using hi, hstep.trans heq, hlt, ?_, ?_⟩
        · intro j e' hj hj'
          cases j with
          | zero =>
            simp only [List.getElem?_cons_zero, Option.some.injEq] at hj'
            exact hj' ▸ lt_of_lt_of_le hlt hbc
          | succ j =>
            exact hfirst j e' (Nat.lt_of_succ_lt_succ hj) (by simpa using hj')
        · intro e' he'
          rcases List.mem_cons.mp he' with rfl | he'
          · exact le_of_lt (lt_of_lt_of_le hlt hbc)
          · exact hall e' he'

/-- `min(dex_prices, key=price)` returns the element at the first index
attaining the minimum price: a weak lower bound for the whole list that
is strictly below every earlier element. -/
lemma selMinFrom_first (x : DexPrice) (xs : List DexPrice) :
    ∃ (i : ℕ) (e : DexPrice), (x :: xs)[i]? = some e ∧ selMinFrom x xs = e ∧
      (∀ (j : ℕ) (e' : DexPrice), j < i → (x :: xs)[j]? = some e' →
        e.price < e'.price) ∧
      ∀ e' ∈ x :: xs, e.price ≤ e'.price := by
  rw [selMinFrom_eq_pick]
  rcases pickFirstBy_spec (fun e => e.price) xs x with ⟨heq, hall⟩ |
    ⟨i, e, hi, heq, hlt, hfirst, hall⟩
  · refine ⟨0, x, by simp, heq, ?_, ?_⟩
    · intro j e' hj _
      exact absurd hj (Nat.not_lt_zero j)
    · intro e' he'
      rcases List.mem_cons.mp he' with rfl | he'
      · exact le_refl _
      · exact hall e' he'
  · refine ⟨i + 1, e, by simpa using hi, heq, ?_, ?_⟩
    · intro j e' hj hj'
      cases j with
      | zero =>
        simp only [List.getElem?_cons_zero, Option.some.injEq] at hj'
        exact hj' ▸ hlt
      | succ j =>
        exact hfirst j e' (Nat.lt_of_succ_lt_succ hj) (by simpa using hj')
    · intro e' he'
      rcases List.mem_cons.mp he' with rfl | he'
      · exact le_of_lt hlt
      · exact hall e' he'

/-- `max(dex_prices, key=price)` returns the element at the first index
attaining the maximum price. -/
lemma selMaxFrom_first (x : DexPrice) (xs : List DexPrice) :
    ∃ (i : ℕ) (e : DexPrice), (x :: xs)[i]? = some e ∧ selMaxFrom x xs = e ∧
      (∀ (j : ℕ) (e' : DexPrice), j < i → (x :: xs)[j]? = some e' →
        e'.price < e.price) ∧
      ∀ e' ∈ x :: xs, e'.price ≤ e.price := by
  rw [selMaxFrom_eq_pick]
  rcases pickFirstBy_spec (fun e => -e.price) xs x with ⟨heq, hall⟩ |
    ⟨i, e, hi, heq, hlt, hfirst, hall⟩
  · refine ⟨0, x, by simp, heq, ?_, ?_⟩
    · intro j e' hj _
      exact absurd hj (Nat.not_lt_zero j)
    · intro e' he'
      rcases List.mem_cons.mp he' with rfl | he'
      · exact le_refl _
      · exact neg_le_neg_iff.mp (hall e' he')
  · refine ⟨i + 1, e, by simpa using hi, heq, ?_, ?_⟩
    · intro j e' hj hj'
      cases j with
      | zero =>
        simp only [List.getElem?_cons_zero, Option.some.injEq] at hj'
        exact hj' ▸ neg_lt_neg_iff.mp hlt
      | succ j =>
        exact neg_lt_neg_iff.mp
          (hfirst j e' (Nat.lt_of_succ_lt_succ hj) (by simpa using hj'))
    · intro e' he'
      rcases List.mem_cons.mp he' with rfl | he'
      · exact le_of_lt (neg_lt_neg_iff.mp hlt)
      · exact neg_le_neg_iff.mp (hall e' he')

/-- Distinct selected DEX names force a strict buy/sell price gap: were
the minimum and maximum prices equal, both selections would keep the
first element of the list, hence the same DEX name. -/
lemma selMinFrom_price_lt (x : DexPrice) (xs : List DexPrice)
    (hdex : (selMinFrom x xs).dex ≠ (selMaxFrom x xs).dex) :
    (selMinFrom x xs).price < (selMaxFrom x xs).price := by
  obtain ⟨i, mn, hi, hmneq, hminFirst, hminAll⟩ := selMinFrom_first x xs
  obtain ⟨k, mx, hk, hmxeq, hmaxFirst, hmaxAll⟩ := selMaxFrom_first x xs
  rw [hmneq, hmxeq] at hdex ⊢
  by_contra hnlt
  have hmnmem : mn ∈ x :: xs := List.getElem?_mem hi
  have heqp : mn.price = mx.price :=
    le_antisymm (hmaxAll mn hmnmem) (le_of_not_lt hnlt)
  have hx0 : (x :: xs)[0]? = some x := by simp
  have hi0 : i = 0 := by
    by_contra hne
    have hxlt : mn.price < x.price :=
      hminFirst 0 x (Nat.pos_of_ne_zero hne) hx0
    have hxle : x.price ≤ mn.price :=
      heqp ▸ hmaxAll x (List.mem_cons_self x xs)
    exact absurd (lt_of_lt_of_le hxlt hxle) (lt_irrefl _)
  have hk0 : k = 0 := by
    by_contra hne
    have hxlt : x.price < mx.price :=
      hmaxFirst 0 x (Nat.pos_of_ne_zero hne) hx0
    have hxle : mx.price ≤ x.price :=
      heqp ▸ hminAll x (List.mem_cons_self x xs)
    exact absurd (lt_of_lt_of_le hxlt hxle) (lt_irrefl _)
  rw [hi0] at hi
  rw [hk0] at hk
  have hmnx : x = mn := by
    simpa only [hx0, Option.some.injEq] using hi
  have hmxx : x = mx := by
    simpa only [hx0, Option.some.injEq] using hk
  exact hdex (hmnx ▸ hmxx ▸ rfl)

/-! ### Soundness of the emission guards -/

/-- Every opportunity `scanPairFrom` emits satisfies its guards: a
strict buy/sell gap, the profit threshold, distinct DEX names, and the
profit-percentage formula. -/
lemma scanPairFrom_sound (minProfit now : ℚ) (ta tb : String)
    (dps : List DexPrice) (o : Opportunity)
    (ho : o ∈ scanPairFrom minProfit now ta tb dps) :
    o.buy_price < o.sell_price ∧ minProfit ≤ o.profit_percentage ∧
      o.buy_dex ≠ o.sell_dex ∧
      o.profit_percentage = (o.sell_price - o.buy_price) / o.buy_price * 100 := by
  match dps with
  | [] => simp [scanPairFrom] at ho
  | [x] => simp [scanPairFrom] at ho
  | x :: y :: rest =>
    simp only [scanPairFrom] at ho
    split at ho
    next hdex =>
      split at ho
      next hpp =>
        simp only [List.mem_singleton] at ho
        subst ho
        exact ⟨selMinFrom_price_lt x (y :: rest) hdex, hpp, hdex, rfl⟩
      next => simp at ho
    next => simp at ho

/-- An opportunity of the sorted scan output comes from the per-pair
scan of some ordered pair of distinct tokens. -/
lemma mem_get_arbitrage_opportunities (snap : Snapshot)
    (tokens : List String) (minProfit now : ℚ) (o : Opportunity)
    (ho : o ∈ get_arbitrage_opportunities snap tokens minProfit now) :
    ∃ ta tb, o ∈ scanPair snap minProfit now ta tb := by
  unfold get_arbitrage_opportunities at ho
  rw [List.mem_insertionSort] at ho
  rcases List.mem_flatMap.mp ho with ⟨ta, _, h1⟩
  rcases List.mem_flatMap.mp h1 with ⟨tb, _, h2⟩
  by_cases he : ta = tb
  · rw [if_pos he] at h2
    exact absurd h2 (List.not_mem_nil o)
  · rw [if_neg he] at h2
    exact ⟨ta, tb, h2⟩

/-- Every agent opportunity `agentEmit` emits satisfies its guards. -/
lemma agentEmit_sound (minProfit maxPos now : ℚ) (ta tb : String)
    (bp : Option (ℚ × String) × Option (ℚ × String)) (o : AgentOpportunity)
    (ho : o ∈ agentEmit minProfit maxPos now ta tb bp) :
    o.buy_price < o.sell_price ∧ minProfit ≤ o.profit_percentage ∧
      o.buy_dex ≠ o.sell_dex := by
  match bp with
  | (none, bs) => simp [agentEmit] at ho
  | (some bb, none) => simp [agentEmit] at ho
  | (some bb, some bs) =>
    simp only [agentEmit] at ho
    split at ho
    next hcond =>
      split at ho
      next hpp =>
        simp only [List.mem_singleton] at ho
        subst ho
        exact ⟨hcond.2.2.2, hpp, hcond.2.2.1⟩
      next => simp at ho
    next => simp at ho

/-- An opportunity of the truncated, sorted agent output comes from the
per-pair scan of some ordered pair. -/
lemma mem_find_arbitrage_opportunities (snap : Snapshot)
    (tokens : List String) (minProfit maxPos : ℚ) (maxConcurrent : ℕ)
    (now : ℚ) (o : AgentOpportunity)
    (ho : o ∈ find_arbitrage_opportunities snap tokens minProfit maxPos
      maxConcurrent now) :
    ∃ ta tb, o ∈ agentScanPair snap minProfit maxPos now ta tb := by
  unfold find_arbitrage_opportunities at ho
  split at ho
  · exact absurd ho (List.not_mem_nil o)
  · have ho2 := (List.take_sublist _ _).subset ho
    rw [List.mem_insertionSort] at ho2
    rcases List.mem_flatMap.mp ho2 with ⟨ta, _, h1⟩
    rcases List.mem_flatMap.mp h1 with ⟨tb, _, h2⟩
    by_cases he : ta = tb
    · rw [if_pos he] at h2
      exact absurd h2 (List.not_mem_nil o)
    · rw [if_neg he] at h2
      exact ⟨ta, tb, h2⟩

/-! ### The scan ignores stored timestamps -/

lemma dictGet_map (g : PriceData → PriceData) :
    ∀ (l : List (String × PriceData)) (k : String),
      dictGet (l.map fun kv => (kv.1, g kv.2)) k = (dictGet l k).map g
  | [], _ => rfl
  | (k0, v) :: rest, k => by
    simp only [List.map_cons, dictGet]
    split
    · rfl
    · exact dictGet_map g rest k

lemma collectDexPrices_retime (f : ℚ → ℚ) (snap : Snapshot) (pk : String) :
    collectDexPrices (retime f snap) pk
      = (collectDexPrices snap pk).map
          fun e => { e with timestamp := f e.timestamp } := by
  unfold collectDexPrices retime
  rw [List.filterMap_map, List.map_filterMap]
  congr 1
  funext dp
  rw [Function.comp_apply,
    dictGet_map (fun pd => { pd with timestamp := f pd.timestamp }) dp.2 pk]
  cases dictGet dp.2 pk <;> rfl

/-- The selection fold commutes with any key-preserving rewrite of the
entries. -/
lemma pickFirstBy_map (key : DexPrice → ℚ) (g : DexPrice → DexPrice)
    (hg : ∀ e, key (g e) = key e) :
    ∀ (l : List DexPrice) (b : DexPrice),
      pickFirstBy key (g b) (l.map g) = g (pickFirstBy key b l)
  | [], _ => rfl
  | c :: cs, b => by
    have hL : pickFirstBy key (g b) ((c :: cs).map g)
        = pickFirstBy key (if key (g c) < key (g b) then g c else g b)
            (cs.map g) := rfl
    have hR : pickFirstBy key b (c :: cs)
        = pickFirstBy key (if key c < key b then c else b) cs := rfl
    rw [hL, hR]
    by_cases h : key c < key b
    · rw [if_pos h, if_pos (by rw [hg, hg]; exact h)]
      exact pickFirstBy_map key g hg cs c
    · rw [if_neg h, if_neg (by rw [hg, hg]; exact h)]
      exact pickFirstBy_map key g hg cs b

lemma scanPairFrom_retime (f : ℚ → ℚ) (minProfit now : ℚ) (ta tb : String)
    (dps : List DexPrice) :
    scanPairFrom minProfit now ta tb
        (dps.map fun e => { e with timestamp := f e.timestamp })
      = scanPairFrom minProfit now ta tb dps := by
  match dps with
  | [] => rfl
  | [x] => rfl
  | x :: y :: rest =>
    have hmin : selMinFrom ({ x with timestamp := f x.timestamp })
        ((y :: rest).map fun e => { e with timestamp := f e.timestamp })
        = { selMinFrom x (y :: rest) with
            timestamp := f (selMinFrom x (y :: rest)).timestamp } := by
      rw [selMinFrom_eq_pick, selMinFrom_eq_pick]
      exact pickFirstBy_map (fun e => e.price)
        (fun e => { e with timestamp := f e.timestamp }) (fun e => rfl)
        (y :: rest) x
    have hmax : selMaxFrom ({ x with timestamp := f x.timestamp })
        ((y :: rest).map fun e => { e with timestamp := f e.timestamp })
        = { selMaxFrom x (y :: rest) with
            timestamp := f (selMaxFrom x (y :: rest)).timestamp } := by
      rw [selMaxFrom_eq_pick, selMaxFrom_eq_pick]
      exact pickFirstBy_map (fun e => -e.price)
        (fun e => { e with timestamp := f e.timestamp }) (fun e => rfl)
        (y :: rest) x
    simp only [List.map_cons] at hmin hmax ⊢
    simp only [scanPairFrom, hmin, hmax]

lemma scanPair_retime (f : ℚ → ℚ) (snap : Snapshot) (minProfit now : ℚ)
    (ta tb : String) :
    scanPair (retime f snap) minProfit now ta tb
      = scanPair snap minProfit now ta tb := by
  unfold scanPair
  rw [collectDexPrices_retime, scanPairFrom_retime]

lemma get_arbitrage_opportunities_retime (f : ℚ → ℚ) (snap : Snapshot)
    (tokens : List String) (minProfit now : ℚ) :
    get_arbitrage_opportunities (retime f snap) tokens minProfit now
      = get_arbitrage_opportunities snap tokens minProfit now := by
  unfold get_arbitrage_opportunities
  congr 1
  congr 1
  funext ta
  congr 1
  funext tb
  by_cases he : ta = tb
  · rw [if_pos he, if_pos he]
  · rw [if_neg he, if_neg he, scanPair_retime]

/-! ### The scan depends on the clock only through the output
timestamp -/

lemma scanPairFrom_time (minProfit t t' : ℚ) (ta tb : String)
    (dps : List DexPrice) :
    scanPairFrom minProfit t ta tb dps
      = (scanPairFrom minProfit t' ta tb dps).map
          fun o => { o with timestamp := t } := by
  match dps with
  | [] => rfl
  | [x] => rfl
  | x :: y :: rest =>
    simp only [scanPairFrom]
    split
    · split
      · rfl
      · rfl
    · rfl

lemma scanPair_time (snap : Snapshot) (minProfit t t' : ℚ)
    (ta tb : String) :
    scanPair snap minProfit t ta tb
      = (scanPair snap minProfit t' ta tb).map
          fun o => { o with timestamp := t } := by
  unfold scanPair
  exact scanPairFrom_time minProfit t t' ta tb _

lemma orderedInsert_time (t : ℚ) (a : Opportunity) :
    ∀ l : List Opportunity,
      List.orderedInsert profitGE ({ a with timestamp := t })
          (l.map fun o => { o with timestamp := t })
        = (List.orderedInsert profitGE a l).map
            fun o => { o with timestamp := t }
  | [] => rfl
  | b :: l => by
    simp only [List.map_cons, List.orderedInsert]
    by_cases h : profitGE a b
    · rw [if_pos h,
        if_pos (show profitGE { a with timestamp := t }
          { b with timestamp := t } from h)]
      simp
    · rw [if_neg h,
        if_neg (show ¬ profitGE { a with timestamp := t }
          { b with timestamp := t } from h)]
      rw [List.map_cons, orderedInsert_time t a l]

lemma insertionSort_time (t : ℚ) :
    ∀ l : List Opportunity,
      List.insertionSort profitGE (l.map fun o => { o with timestamp := t })
        = (List.insertionSort profitGE l).map
            fun o => { o with timestamp := t }
  | [] => rfl
  | a :: l => by
    simp only [List.map_cons, List.insertionSort]
    rw [insertionSort_time t l, orderedInsert_time t a _]

lemma get_arbitrage_opportunities_time (snap : Snapshot)
    (tokens : List String) (minProfit t t' : ℚ) :
    get_arbitrage_opportunities snap tokens minProfit t
      = (get_arbitrage_opportunities snap tokens minProfit t').map
          fun o => { o with timestamp := t } := by
  unfold get_arbitrage_opportunities
  rw [← insertionSort_time]
  congr 1
  rw [List.map_flatMap]
  congr 1
  funext ta
  rw [List.map_flatMap]
  congr 1
  funext tb
  by_cases he : ta = tb
  · rw [if_pos he, if_pos he]
    rfl
  · rw [if_neg he, if_neg he]
    exact scanPair_time snap minProfit t t' ta tb

/-! ### Sortedness and concurrency bounds -/

lemma sorted_get_arbitrage_opportunities (snap : Snapshot)
    (tokens : List String) (minProfit now : ℚ) :
    List.Sorted profitGE
      (get_arbitrage_opportunities snap tokens minProfit now) :=
  List.sorted_insertionSort profitGE _

lemma sorted_find_arbitrage_opportunities (snap : Snapshot)
    (tokens : List String) (minProfit maxPos : ℚ) (maxConcurrent : ℕ)
    (now : ℚ) :
    List.Sorted agentProfitGE
      (find_arbitrage_opportunities snap tokens minProfit maxPos
        maxConcurrent now) := by
  unfold find_arbitrage_opportunities
  split
  · exact List.sorted_nil
  · exact List.Pairwise.sublist (List.take_sublist _ _)
      (List.sorted_insertionSort agentProfitGE _)

lemma length_find_arbitrage_opportunities (snap : Snapshot)
    (tokens : List String) (minProfit maxPos : ℚ) (maxConcurrent : ℕ)
    (now : ℚ) :
    (find_arbitrage_opportunities snap tokens minProfit maxPos
      maxConcurrent now).length ≤ maxConcurrent := by
  unfold find_arbitrage_opportunities
  split
  · simp
  · exact List.length_take_le _ _

lemma launchLoop_length (maxConcurrent : ℕ) :
    ∀ (rest tasks : List AgentOpportunity),
      tasks.length ≤ maxConcurrent →
      (launchLoop maxConcurrent tasks rest).length ≤ maxConcurrent
  | [], tasks, h => by simpa [launchLoop] using h
  | o :: rest, tasks, h => by
    unfold launchLoop
    split
    · simpa using h
    next hlen =>
      exact launchLoop_length maxConcurrent rest (o :: tasks)
        (Nat.succ_le_of_lt (lt_of_not_le hlen))

/-! ### Hop chaining in the swap-data builder -/

/-- The chaining discipline of the claim: the first instruction takes
the initial amount and every later instruction takes the previous
one's minimum output. -/
def chainedFrom : ℕ → List SwapInstruction → Prop
  | _, [] => True
  | cur, ins :: rest => ins.amount_in = cur ∧ chainedFrom ins.minimum_amount_out rest

lemma buildHops_spec (ta tb : String) (bps n : ℕ) :
    ∀ (path : List String) (i cur : ℕ) (l : List SwapInstruction),
      buildHops ta tb bps n i cur path = some l →
      chainedFrom cur l ∧
        ∀ ins ∈ l, ins.minimum_amount_out
          = calculate_slippage_amount ins.amount_in bps
  | [], i, cur, l, h => by
    simp only [buildHops, Option.some.injEq] at h
    subst h
    exact ⟨trivial, by simp⟩
  | d :: rest, i, cur, l, h => by
    cases hd : dexTypeMap (strLower d) with
    | none =>
      simp only [buildHops, hd] at h
      exact Option.noConfusion h
    | some dt =>
      simp only [buildHops, hd] at h
      obtain ⟨l2, hl2, hcons⟩ := Option.map_eq_some'.mp h
      obtain ⟨hchain, hall⟩ :=
        buildHops_spec ta tb bps n rest (i + 1) (cur * (10000 - bps) / 10000)
          l2 hl2
      subst hcons
      refine ⟨⟨rfl, hchain⟩, ?_⟩
      intro ins hins
      rcases List.mem_cons.mp hins with rfl | hins
      · rfl
      · exact hall ins hins

/-! ### Execution statistics -/

lemma runSuccesses_spec :
    ∀ xs : List ℚ,
      (runSuccesses xs).successful_swaps = xs.length ∧
      (runSuccesses xs).average_execution_time * (xs.length : ℚ) = xs.sum := by
  intro xs
  induction xs using List.reverseRecOn with
  | nil => simp [runSuccesses, initialStats]
  | append_singleton l x ih =>
    obtain ⟨hn, havg⟩ := ih
    have hstep : runSuccesses (l ++ [x])
        = execute_arbitrage_swap_stats (runSuccesses l) (.confirmedTx x 0) := by
      unfold runSuccesses
      rw [List.foldl_append]
      rfl
    have hnz : ((l.length : ℚ) + 1) ≠ 0 := by positivity
    constructor
    · rw [hstep]
      simp only [execute_arbitrage_swap_stats, update_average_execution_time]
      simp [hn]
    · rw [hstep]
      simp only [execute_arbitrage_swap_stats, update_average_execution_time, hn,
        List.length_append, List.sum_append, List.length_cons, List.length_nil,
        List.sum_cons, List.sum_nil]
      push_cast
      rw [add_sub_cancel_right, div_mul_cancel₀ _ hnz, havg]
      ring

/-! ### Concrete snapshots for counterexamples and witnesses -/

/-- Two DEXes quoting the direct key `"A-B"`, both stored with
timestamp `0`. -/
def snapStale : Snapshot :=
  [("d1", [("A-B", { price := 100, liquidity := 5, timestamp := 0 })]),
   ("d2", [("A-B", { price := 102, liquidity := 7, timestamp := 0 })])]

/-- One DEX quoting the direct key `"A-B"` and one quoting only the
reciprocal key `"B-A"` (at the reciprocal of 102). -/
def snapRecip : Snapshot :=
  [("d1", [("A-B", { price := 100, liquidity := 5, timestamp := 0 })]),
   ("d2", [("B-A", { price := 1 / 102, liquidity := 7, timestamp := 0 })])]

lemma take8_A : ("A".take 8) = "A" := by decide

lemma take8_B : ("B".take 8) = "B" := by decide

/-- The scan of `snapStale` at any clock reading: one opportunity, buy
`d1` at 100, sell `d2` at 102, profit 2 %. -/
lemma scan_snapStale (now : ℚ) :
    get_arbitrage_opportunities snapStale ["A", "B"] (1 / 2) now
      = [{ token_pair := "A.../B...", buy_dex := "d1", sell_dex := "d2",
           buy_price := 100, sell_price := 102, profit_percentage := 2,
           buy_liquidity := 5, sell_liquidity := 7, timestamp := now }] := by
  simp only [get_arbitrage_opportunities, scanPair, scanPairFrom,
    collectDexPrices, dictGet, selMinFrom, selMaxFrom, snapStale,
    List.insertionSort, List.orderedInsert, profitGE, List.filterMap_cons,
    List.filterMap_nil, List.flatMap_cons, List.flatMap_nil, List.foldl_cons,
    List.foldl_nil, List.append_nil, List.nil_append, String.reduceEq,
    String.reduceAppend, reduceIte, Option.map_some, Option.map_none,
    take8_A, take8_B]
  norm_num

/-- The scan of `snapRecip` finds nothing: only one DEX has the direct
key, so `len(dex_prices) >= 2` fails. -/
lemma scan_snapRecip (now : ℚ) :
    get_arbitrage_opportunities snapRecip ["A", "B"] (1 / 2) now = [] := by
  simp only [get_arbitrage_opportunities, scanPair, scanPairFrom,
    collectDexPrices, dictGet, selMinFrom, selMaxFrom, snapRecip,
    List.insertionSort, List.orderedInsert, profitGE, List.filterMap_cons,
    List.filterMap_nil, List.flatMap_cons, List.flatMap_nil, List.foldl_cons,
    List.foldl_nil, List.append_nil, List.nil_append, String.reduceEq,
    String.reduceAppend, reduceIte, Option.map_some, Option.map_none]

/-! ### Claim theorems -/

/-- C1, counterexample to the claim as stated: in `snapRecip`, DEX
`d2` quotes only the reciprocal key `"B-A"` at `1/102`.  Under the
claimed rule `d2` would participate in the `"A-B"` selection at the
inverted price 102 (as `collectDexPricesClaimed` shows, yielding a 2 %
opportunity above the 0.5 % threshold), but the scan collects only the
direct key, sees a single quote, and returns no opportunity. -/
theorem C1_reciprocal_quote_ignored :
    get_arbitrage_opportunities snapRecip ["A", "B"] (1 / 2) 0 = [] ∧
    (collectDexPrices snapRecip ("A" ++ "-" ++ "B")).map DexPrice.dex
      = ["d1"] ∧
    (collectDexPricesClaimed snapRecip "A" "B").map DexPrice.dex
      = ["d1", "d2"] ∧
    (collectDexPricesClaimed snapRecip "A" "B").map DexPrice.price
      = [100, 102] ∧
    scanPairFrom (1 / 2) 0 "A" "B"
      (collectDexPricesClaimed snapRecip "A" "B") ≠ [] := by
  refine ⟨scan_snapRecip 0, ?_, ?_, ?_, ?_⟩ <;>
    · simp only [collectDexPrices, collectDexPricesClaimed, scanPairFrom,
        dictGet, selMinFrom, selMaxFrom, snapRecip, List.filterMap_cons,
        List.filterMap_nil, List.foldl_cons, List.foldl_nil, List.map_cons,
        List.map_nil, String.reduceEq, String.reduceAppend, reduceIte,
        Option.map_some, Option.map_none, take8_A, take8_B]
      norm_num <;> decide

/-- C1 (corrected): the arbitrage scan consults only the direct pair
key — every collected entry comes from a DEX whose price dict holds
the direct key, at the stored (uninverted) price; reciprocal lookup
with price inversion happens only in `get_price_for_pair`'s fallback
branch. -/
theorem C1_scan_direct_key_only :
    (∀ (snap : Snapshot) (pairKey : String) (e : DexPrice),
        e ∈ collectDexPrices snap pairKey →
        ∃ prices pd, (e.dex, prices) ∈ snap ∧
          dictGet prices pairKey = some pd ∧ e.price = pd.price) ∧
    (∀ (snap : Snapshot) (ta tb dex : String)
        (prices : List (String × PriceData)) (pd : PriceData),
        dictGet snap dex = some prices →
        dictGet prices (ta ++ "-" ++ tb) = none →
        dictGet prices (tb ++ "-" ++ ta) = some pd →
        get_price_for_pair snap ta tb dex
          = some { pd with price := 1 / pd.price }) := by
  constructor
  · intro snap pairKey e he
    unfold collectDexPrices at he
    rcases List.mem_filterMap.mp he with ⟨dp, hdp, hmap⟩
    obtain ⟨d, prices⟩ := dp
    rcases Option.map_eq_some'.mp hmap with ⟨pd, hget, hmk⟩
    subst hmk
    exact ⟨prices, pd, hdp, hget, rfl⟩
  · intro snap ta tb dex prices pd hsnap hdir hrev
    simp only [get_price_for_pair, hsnap, Option.getD_some, hdir, hrev]

/-- C2, counterexample to the claim as stated: with every stored entry
carrying timestamp 0 and the scan running at time 1000000, both legs of
the returned opportunity come from entries aged 1000000 — far beyond
any staleness bound such as 60 seconds — yet they are not excluded. -/
theorem C2_stale_entry_returned :
    get_arbitrage_opportunities snapStale ["A", "B"] (1 / 2) 1000000
      = [{ token_pair := "A.../B...", buy_dex := "d1", sell_dex := "d2",
           buy_price := 100, sell_price := 102, profit_percentage := 2,
           buy_liquidity := 5, sell_liquidity := 7,
           timestamp := 1000000 }] ∧
    (collectDexPrices snapStale ("A" ++ "-" ++ "B")).map DexPrice.timestamp
      = [0, 0] ∧
    (60 : ℚ) < 1000000 - 0 := by
  refine ⟨scan_snapStale 1000000, ?_, by norm_num⟩
  simp only [collectDexPrices, dictGet, snapStale, List.filterMap_cons,
    List.filterMap_nil, List.map_cons, List.map_nil, String.reduceEq,
    String.reduceAppend, reduceIte, Option.map_some, Option.map_none]
  norm_num

/-- C2 (corrected): the scan applies no staleness filter at all — its
output is invariant under arbitrary rewriting of every stored
timestamp, so entries of any age participate in (and are never excluded
from) returned opportunities. -/
theorem C2_no_staleness_filter (f : ℚ → ℚ) (snap : Snapshot)
    (tokens : List String) (minProfit now : ℚ) :
    get_arbitrage_opportunities (retime f snap) tokens minProfit now
      = get_arbitrage_opportunities snap tokens minProfit now :=
  get_arbitrage_opportunities_retime f snap tokens minProfit now

/-- C3 (confirmed): every opportunity returned by either scan has a
strict buy/sell price gap, profit percentage
`(sell - buy) / buy * 100` at or above the threshold, and distinct buy
and sell DEXes; the guards make violating opportunities impossible to
construct. -/
theorem C3_emitted_opportunity_guards :
    (∀ (snap : Snapshot) (tokens : List String) (minProfit now : ℚ)
        (o : Opportunity),
        o ∈ get_arbitrage_opportunities snap tokens minProfit now →
        o.buy_price < o.sell_price ∧ minProfit ≤ o.profit_percentage ∧
          o.buy_dex ≠ o.sell_dex ∧
          o.profit_percentage
            = (o.sell_price - o.buy_price) / o.buy_price * 100) ∧
    (∀ (snap : Snapshot) (tokens : List String) (minProfit maxPos : ℚ)
        (maxConcurrent : ℕ) (now : ℚ) (o : AgentOpportunity),
        o ∈ find_arbitrage_opportunities snap tokens minProfit maxPos
          maxConcurrent now →
        o.buy_price < o.sell_price ∧ minProfit ≤ o.profit_percentage ∧
          o.buy_dex ≠ o.sell_dex) := by
  constructor
  · intro snap tokens minProfit now o ho
    obtain ⟨ta, tb, hsp⟩ :=
      mem_get_arbitrage_opportunities snap tokens minProfit now o ho
    exact scanPairFrom_sound minProfit now ta tb _ o hsp
  · intro snap tokens minProfit maxPos maxConcurrent now o ho
    obtain ⟨ta, tb, hsp⟩ :=
      mem_find_arbitrage_opportunities snap tokens minProfit maxPos
        maxConcurrent now o ho
    exact agentEmit_sound minProfit maxPos now ta tb _ o hsp

/-- C4 (confirmed): whenever `_build_swap_data` succeeds, every hop's
minimum output is `amount_in * (10000 - maxSlippageBps) / 10000`
truncated to an integer, the hops chain (each minimum output is the
next hop's input, starting from the initial swap amount), and the
spec's scenario holds: 50 bps on 1 000 000 gives 995 000. -/
theorem C4_slippage_chain (ta tb : String) (amount : ℕ)
    (path : List String) (minProfit : ℤ) (bps : ℕ) (sd : SwapData)
    (h : build_swap_data ta tb amount path minProfit bps = some sd) :
    chainedFrom amount sd.swap_instructions ∧
    (∀ ins ∈ sd.swap_instructions,
        ins.minimum_amount_out
          = calculate_slippage_amount ins.amount_in bps) ∧
    calculate_slippage_amount 1000000 50 = 995000 := by
  unfold build_swap_data at h
  obtain ⟨l, hl, hsd⟩ := Option.map_eq_some'.mp h
  obtain ⟨hchain, hall⟩ :=
    buildHops_spec ta tb bps path.length path 0 amount l hl
  subst hsd
  exact ⟨hchain, hall, rfl⟩

/-- The swap data built for a two-hop jupiter/raydium path at 50 bps
from 1 000 000 units. -/
def sd50 : SwapData :=
  { expected_profit := 0, slippage_bps := 50, swap_instructions :=
      [{ dex_type := 0, amount_in := 1000000, minimum_amount_out := 995000,
         token_mint_in := "a", token_mint_out := "b" },
       { dex_type := 1, amount_in := 995000, minimum_amount_out := 990025,
         token_mint_in := "b", token_mint_out := "a" }] }

/-- C4 witness: the theorem applied to the concrete two-hop build. -/
theorem C4_slippage_chain_witness :
    chainedFrom 1000000 sd50.swap_instructions ∧
    (∀ ins ∈ sd50.swap_instructions,
        ins.minimum_amount_out
          = calculate_slippage_amount ins.amount_in 50) ∧
    calculate_slippage_amount 1000000 50 = 995000 :=
  C4_slippage_chain "a" "b" 1000000 ["jupiter", "raydium"] 0 50 sd50
    (by decide)

/-- C5 (confirmed): both scans return opportunities sorted by profit
percentage in descending order, the agent's list is truncated to at
most `max_concurrent_swaps` entries, and the coordinator's launch loop
starts at most that many pipeline tasks per cycle. -/
theorem C5_sorted_and_bounded :
    (∀ (snap : Snapshot) (tokens : List String) (minProfit now : ℚ),
        List.Sorted profitGE
          (get_arbitrage_opportunities snap tokens minProfit now)) ∧
    (∀ (snap : Snapshot) (tokens : List String) (minProfit maxPos : ℚ)
        (maxConcurrent : ℕ) (now : ℚ),
        List.Sorted agentProfitGE
          (find_arbitrage_opportunities snap tokens minProfit maxPos
            maxConcurrent now) ∧
        (find_arbitrage_opportunities snap tokens minProfit maxPos
          maxConcurrent now).length ≤ maxConcurrent) ∧
    (∀ (ops : List AgentOpportunity) (maxConcurrent : ℕ),
        (execute_opportunities_tasks ops maxConcurrent).length
          ≤ maxConcurrent) := by
  refine ⟨sorted_get_arbitrage_opportunities, ?_, ?_⟩
  · intro snap tokens minProfit maxPos maxConcurrent now
    exact ⟨sorted_find_arbitrage_opportunities snap tokens minProfit maxPos
        maxConcurrent now,
      length_find_arbitrage_opportunities snap tokens minProfit maxPos
        maxConcurrent now⟩
  · intro ops maxConcurrent
    exact launchLoop_length maxConcurrent ops [] (Nat.zero_le _)

/-- C6, counterexample to the claim as stated: a fifth consecutive
failure arriving as a raised exception makes the counter reach the
threshold (`maxFailures = 5`); the iteration sleeps `min(30, 2^5) = 30`
seconds, but the counter after the iteration is 5, not 0 — the
exception branch never resets it. -/
theorem C6_error_path_keeps_counter :
    maxFailures = 5 ∧ monitorStep 4 PollEvent.raised 1 = (5, [30]) ∧
      (monitorStep 4 PollEvent.raised 1).1 ≠ 0 := by
  refine ⟨rfl, ?_, ?_⟩ <;> norm_num [monitorStep, min_eq_left]

/-- C6 (corrected): when the counter reaches the threshold the
iteration does sleep at least the 30-second cooldown before the next
poll in both failure branches, but the counter is reset to zero only
when the threshold is reached through the empty-response branch; the
exception branch leaves it at `c + 1`. -/
theorem C6_threshold_pause (c : ℕ) (interval : ℚ)
    (hc : maxFailures ≤ c + 1) (hi : 0 ≤ interval) :
    ((monitorStep c PollEvent.noPrices interval).1 = 0 ∧
      30 ≤ sleepTotal (monitorStep c PollEvent.noPrices interval)) ∧
    ((monitorStep c PollEvent.raised interval).1 = c + 1 ∧
      30 ≤ sleepTotal (monitorStep c PollEvent.raised interval)) := by
  have h32 : (30 : ℚ) ≤ 2 ^ (c + 1) := by
    calc (30 : ℚ) ≤ 2 ^ 5 := by norm_num
    _ ≤ 2 ^ (c + 1) := by
      exact pow_le_pow_right₀ (by norm_num) hc
  refine ⟨⟨?_, ?_⟩, ?_, ?_⟩
  · simp [monitorStep, hc]
  · simp only [monitorStep, if_pos hc, sleepTotal, List.sum_cons,
      List.sum_nil]
    linarith
  · simp [monitorStep]
  · simp only [monitorStep, sleepTotal, List.sum_cons, List.sum_nil,
      min_eq_left h32]
    norm_num

/-- C6 witness: four prior failures, then a fifth, at a 1-second poll
interval. -/
theorem C6_threshold_pause_witness :
    ((monitorStep 4 PollEvent.noPrices 1).1 = 0 ∧
      30 ≤ sleepTotal (monitorStep 4 PollEvent.noPrices 1)) ∧
    ((monitorStep 4 PollEvent.raised 1).1 = 4 + 1 ∧
      30 ≤ sleepTotal (monitorStep 4 PollEvent.raised 1)) :=
  C6_threshold_pause 4 1 (by decide) (by norm_num)

/-- C7, counterexample to the claim as stated: two runs of the scan on
the same snapshot, monitored tokens and threshold, at clock readings 0
and 1, return different sequences — the opportunity's `timestamp` field
is the wall clock of the run. -/
theorem C7_two_runs_differ :
    get_arbitrage_opportunities snapStale ["A", "B"] (1 / 2) 0
      ≠ get_arbitrage_opportunities snapStale ["A", "B"] (1 / 2) 1 := by
  rw [scan_snapStale 0, scan_snapStale 1]
  simp

/-- C7 (corrected): the scan is a pure function of its snapshot and of
the clock, and the clock enters only through the `timestamp` field —
outputs at two clock readings agree after rewriting that field.
Ties for the minimum (buy) and maximum (sell) price go to the first
DEX in iteration order: the selected entry sits at an index before
which every price is strictly worse, and it bounds the whole list. -/
theorem C7_scan_deterministic_up_to_timestamp :
    (∀ (snap : Snapshot) (tokens : List String) (minProfit t1 t2 : ℚ),
        get_arbitrage_opportunities snap tokens minProfit t1
          = (get_arbitrage_opportunities snap tokens minProfit t2).map
              fun o => { o with timestamp := t1 }) ∧
    (∀ (x : DexPrice) (xs : List DexPrice),
        ∃ (i : ℕ), (x :: xs)[i]? = some (selMinFrom x xs) ∧
          (∀ (j : ℕ) (e : DexPrice), j < i → (x :: xs)[j]? = some e →
            (selMinFrom x xs).price < e.price) ∧
          ∀ e ∈ x :: xs, (selMinFrom x xs).price ≤ e.price) ∧
    (∀ (x : DexPrice) (xs : List DexPrice),
        ∃ (i : ℕ), (x :: xs)[i]? = some (selMaxFrom x xs) ∧
          (∀ (j : ℕ) (e : DexPrice), j < i → (x :: xs)[j]? = some e →
            e.price < (selMaxFrom x xs).price) ∧
          ∀ e ∈ x :: xs, e.price ≤ (selMaxFrom x xs).price) := by
  refine ⟨fun snap tokens minProfit t1 t2 =>
    get_arbitrage_opportunities_time snap tokens minProfit t1 t2, ?_, ?_⟩
  · intro x xs
    obtain ⟨i, e, hi, heq, hfirst, hall⟩ := selMinFrom_first x xs
    subst heq
    exact ⟨i, hi, hfirst, hall⟩
  · intro x xs
    obtain ⟨i, e, hi, heq, hfirst, hall⟩ := selMaxFrom_first x xs
    subst heq
    exact ⟨i, hi, hfirst, hall⟩

/-- C8 (confirmed): the average-latency statistic is untouched on every
failure path and, across any run of `n` successful executions from the
zero state with the incremental update
`new_avg = (old_avg * (n - 1) + x) / n`, ends at the arithmetic mean of
the observed latencies. -/
theorem C8_average_latency (xs : List ℚ) (hne : xs ≠ []) :
    (∀ s : ExecutionStats,
        (execute_arbitrage_swap_stats s .buildDataFailed).average_execution_time
            = s.average_execution_time ∧
        (execute_arbitrage_swap_stats s .accountsFailed).average_execution_time
            = s.average_execution_time ∧
        (execute_arbitrage_swap_stats s .txFailed).average_execution_time
            = s.average_execution_time ∧
        (execute_arbitrage_swap_stats s .raised).average_execution_time
            = s.average_execution_time) ∧
    (runSuccesses xs).average_execution_time = xs.sum / xs.length := by
  constructor
  · intro s
    exact ⟨rfl, rfl, rfl, rfl⟩
  · obtain ⟨hn, havg⟩ := runSuccesses_spec xs
    have hlen : (xs.length : ℚ) ≠ 0 := by
      simpa using fun h => hne (List.length_eq_zero.mp h)
    rw [eq_div_iff hlen]
    exact havg

/-- C8 witness: latencies 2 and 4 average to 3. -/
theorem C8_average_latency_witness :
    (∀ s : ExecutionStats,
        (execute_arbitrage_swap_stats s .buildDataFailed).average_execution_time
            = s.average_execution_time ∧
        (execute_arbitrage_swap_stats s .accountsFailed).average_execution_time
            = s.average_execution_time ∧
        (execute_arbitrage_swap_stats s .txFailed).average_execution_time
            = s.average_execution_time ∧
        (execute_arbitrage_swap_stats s .raised).average_execution_time
            = s.average_execution_time) ∧
    (runSuccesses [2, 4]).average_execution_time = [2, 4].sum / [2, 4].length :=
  C8_average_latency [2, 4] (by decide)

/-- C9 (confirmed): every exit path of `execute_arbitrage_swap`
increments `total_attempts` by one and exactly one of
`successful_swaps` or `failed_swaps` by one, so
`total_attempts = successful_swaps + failed_swaps` is preserved by
every call. -/
theorem C9_stats_accounting (s : ExecutionStats) (o : SwapOutcome) :
    (execute_arbitrage_swap_stats s o).total_attempts
        = s.total_attempts + 1 ∧
    (execute_arbitrage_swap_stats s o).successful_swaps
          + (execute_arbitrage_swap_stats s o).failed_swaps
        = s.successful_swaps + s.failed_swaps + 1 ∧
    (s.total_attempts = s.successful_swaps + s.failed_swaps →
      (execute_arbitrage_swap_stats s o).total_attempts
        = (execute_arbitrage_swap_stats s o).successful_swaps
            + (execute_arbitrage_swap_stats s o).failed_swaps) := by
  cases o <;>
    simp [execute_arbitrage_swap_stats, update_average_execution_time] <;>
    omega

/-- C10, counterexample to the claim as stated: with sell 1 ≤ buy 2 but
a negative position size -1, `calculate_profit` returns
`max((1 - 2) * (-1), 0) = 1`, not 0. -/
theorem C10_negative_position_size :
    (1 : ℚ) ≤ 2 ∧ calculate_profit 2 1 (-1) = 1 := by
  constructor
  · norm_num
  · unfold calculate_profit
    norm_num

/-- C10 (corrected): `calculate_profit` returns exactly
`max((sell - buy) * size, 0)`, hence is never negative; for
non-negative position sizes a non-positive spread gives exactly 0. -/
theorem C10_profit_clamped :
    (∀ b s p : ℚ, calculate_profit b s p = max ((s - b) * p) 0 ∧
        0 ≤ calculate_profit b s p) ∧
    (∀ b s p : ℚ, s ≤ b → 0 ≤ p → calculate_profit b s p = 0) := by
  constructor
  · intro b s p
    exact ⟨rfl, le_max_right _ _⟩
  · intro b s p hs hp
    unfold calculate_profit
    exact max_eq_right (by nlinarith)

end SolSwap
